import Mathlib

/-!
Verification development for the versioned machine-document store of
`app/ui_machine_history.py`: name normalization, storage-path allocation,
import/dedup, recall, export, deactivation, and the revision ledger.
Strings are modelled as lists of characters, file contents as lists of
bytes, and the database layer (which in the repository lives in `app/db.py`,
alongside the UI file) as an explicit record, with the database operations
modelled from the specification where noted.
-/

/-- Strings, modelled as lists of characters (the Python `str` values flowing
through the document store are plain character sequences). -/
abbrev Str := List Char

/-- File contents, modelled as byte sequences. -/
abbrev Bytes := List Nat

/-- Python `str.isspace` on the ASCII whitespace characters relevant to
`str.strip()` / `str.split()` with no arguments. -/
def pyIsWs (c : Char) : Bool :=
  c == ' ' || c == '\t' || c == '\n' || c == '\r' || c == Char.ofNat 11 || c == Char.ofNat 12

/-- Python `s.replace(old, new)` for one-character `old` and `new`. -/
def pyReplaceChar (old new : Char) (s : Str) : Str :=
  s.map (fun c => if c == old then new else c)

/-- Python `s.strip()`: remove leading and trailing whitespace. -/
def pyStrip (s : Str) : Str :=
  ((s.dropWhile pyIsWs).reverse.dropWhile pyIsWs).reverse

/-- Worker for Python `s.split()` (split on whitespace runs, dropping empty
pieces); `cur` holds the characters of the word in progress, reversed. -/
def splitWsGo (cur : Str) : Str → List Str
  | [] => if cur.isEmpty then [] else [cur.reverse]
  | c :: cs =>
    if pyIsWs c then
      if cur.isEmpty then splitWsGo [] cs
      else cur.reverse :: splitWsGo [] cs
    else splitWsGo (c :: cur) cs

/-- Python `s.split()` with no arguments. -/
def pySplitWs (s : Str) : List Str := splitWsGo [] s

/-- Python `" ".join(words)`. -/
def joinSpace : List Str → Str
  | [] => []
  | [w] => w
  | w :: x :: ws => w ++ ' ' :: joinSpace (x :: ws)

/-- Worker for splitting on a separator character, keeping empty pieces
(the behaviour of Python `s.split(sep)`). -/
def splitCharGo (sep : Char) (cur : Str) : Str → List Str
  | [] => [cur.reverse]
  | c :: cs =>
    if c == sep then cur.reverse :: splitCharGo sep [] cs
    else splitCharGo sep (c :: cur) cs

/-- Split a string on a separator character, keeping empty pieces. -/
def splitChar (sep : Char) (s : Str) : List Str := splitCharGo sep [] s

/-- `pathlib.PurePosixPath(s).name`: the final path component, after the
parser drops empty components and `.` components. -/
def pathName (s : Str) : Str :=
  ((splitChar '/' s).filter (fun p => !p.isEmpty && !(p == ['.']))).getLast?.getD []

/-- Index of the last `.` in a string (Python `s.rfind('.')`, as an `Option`). -/
def lastDotIdx : Str → Option Nat
  | [] => none
  | c :: cs =>
    match lastDotIdx cs with
    | some i => some (i + 1)
    | none => if c == '.' then some 0 else none

/-- The `pathlib` stem rule applied to a bare file name `nm` (no separators):
drop the suffix starting at the last dot when that dot is neither the first
nor the last character, else keep the name unchanged. -/
def stemOfName (nm : Str) : Str :=
  match lastDotIdx nm with
  | some i => if 0 < i ∧ i < nm.length - 1 then nm.take i else nm
  | none => nm

/-- The `pathlib` suffix rule applied to a bare file name `nm`. -/
def pySuffixOfName (nm : Str) : Str :=
  match lastDotIdx nm with
  | some i => if 0 < i ∧ i < nm.length - 1 then nm.drop i else []
  | none => []

/-- `pathlib.PurePosixPath(f).stem`. -/
def pathStem (f : Str) : Str := stemOfName (pathName f)

/-- `pathlib.PurePosixPath(f).suffix`. -/
def pathSuffix (f : Str) : Str := pySuffixOfName (pathName f)

/-- Decimal digits of `n`, most significant first, with `fuel` bounding the
recursion depth (kept structural so that closed statements evaluate in the
kernel); `decRep` supplies sufficient fuel. -/
def decRepAux : Nat → Nat → Str
  | 0, _ => []
  | fuel + 1, n =>
    if n < 10 then [Nat.digitChar n]
    else decRepAux fuel (n / 10) ++ [Nat.digitChar (n % 10)]

/-- Decimal representation of a natural number, as produced by Python's
string formatting of a nonnegative `int`. -/
def decRep (n : Nat) : Str := decRepAux (n + 1) n

/-- Decode a digit string back to the number it denotes. -/
def decVal (s : Str) : Nat := s.foldl (fun a c => 10 * a + (c.toNat - 48)) 0

theorem decRepAux_decVal : ∀ fuel n, n < fuel → decVal (decRepAux fuel n) = n := by
  intro fuel
  induction fuel with
  | zero => intro n h; omega
  | succ fuel ih =>
    intro n h
    rw [decRepAux]
    by_cases h10 : n < 10
    · simp only [if_pos h10]
      have hd : (Nat.digitChar n).toNat = 48 + n := by
        interval_cases n <;> decide
      simp [decVal, hd]
    · simp only [if_neg h10]
      have hdiv : n / 10 < fuel := by
        have : n / 10 < n := Nat.div_lt_self (by omega) (by omega)
        omega
      have hmod : n % 10 < 10 := Nat.mod_lt _ (by omega)
      have hd : (Nat.digitChar (n % 10)).toNat = 48 + n % 10 := by
        interval_cases h : n % 10 <;> decide
      have := ih (n / 10) hdiv
      simp only [decVal, List.foldl_append] at *
      simp [this, hd]
      omega

theorem decRep_decVal (n : Nat) : decVal (decRep n) = n :=
  decRepAux_decVal (n + 1) n (Nat.lt_succ_self n)

theorem decRep_inj {a b : Nat} (h : decRep a = decRep b) : a = b := by
  have ha := decRep_decVal a
  have hb := decRep_decVal b
  rw [h] at ha
  omega

theorem decRepAux_digits : ∀ fuel n, ∀ c ∈ decRepAux fuel n, ∃ d, d < 10 ∧ c = Nat.digitChar d := by
  intro fuel
  induction fuel with
  | zero => intro n c hc; simp [decRepAux] at hc
  | succ fuel ih =>
    intro n c hc
    rw [decRepAux] at hc
    by_cases h10 : n < 10
    · simp only [if_pos h10, List.mem_singleton] at hc
      exact ⟨n, h10, hc⟩
    · simp only [if_neg h10, List.mem_append, List.mem_singleton] at hc
      rcases hc with hc | hc
      · exact ih (n / 10) c hc
      · exact ⟨n % 10, Nat.mod_lt _ (by omega), hc⟩

theorem decRep_no_underscore (n : Nat) : ∀ c ∈ decRep n, c ≠ '_' := by
  intro c hc
  obtain ⟨d, hd, rfl⟩ := decRepAux_digits (n + 1) n c hc
  interval_cases d <;> decide

/-! ## Source helpers of `ui_machine_history.py` -/

/-- Embedding of `_normalize_doc_name`: `Path(filename).stem`, then
`replace("_", " ").strip()`, then `" ".join(base.split())`. -/
def normalize_doc_name (filename : Str) : Str :=
  let base := pathStem filename
  let base2 := pyStrip (pyReplaceChar '_' ' ' base)
  joinSpace (pySplitWs base2)

/-- Embedding of `_safe_folder_name` on POSIX (`os.sep = '/'`,
`os.altsep = None`): replace the path separator with `_`, then spaces with
`_`, falling back to `"document"` when the result is empty. -/
def safe_folder_name (v : Str) : Str :=
  let s1 := v.map (fun c => if c == '/' then '_' else c)
  let s2 := s1.map (fun c => if c == ' ' then '_' else c)
  if s2.isEmpty then ("document").data else s2

/-- Modelled from the spec: `ContentHasher` streams the bytes and produces a
deterministic content fingerprint (`_hash_file` uses SHA-256). No claim
depends on any property of the digest beyond being a deterministic function
of the bytes, so the fingerprint is modelled as the byte sequence itself. -/
def hashBytes (b : Bytes) : Bytes := b

/-! ## Data model -/

/-- A row of the `documents` table (spec section 6). -/
structure Document where
  id : Nat
  line : Str
  machine : Str
  docType : Str
  name : Str
  createdBy : Str
  active : Bool
deriving DecidableEq

/-- A row of the `revisions` table (spec section 6); `storedPath` is the
path relative to `DATA_DIR`, as a list of components. -/
structure Revision where
  id : Nat
  documentId : Nat
  revisionNumber : Nat
  storedPath : List Str
  originalFilename : Str
  fileHash : Bytes
  createdBy : Str
  notes : Option Str
deriving DecidableEq

/-- The persisted metadata ledger: the two tables plus the id allocators. -/
structure DB where
  documents : List Document
  revisions : List Revision
  nextDocumentId : Nat
  nextRevisionId : Nat
deriving DecidableEq

/-- Whole-system state: the metadata ledger and the files under `DATA_DIR`
(an association list from relative path to contents; a newer entry for the
same path shadows an older one, modelling `shutil.copy2` overwriting). -/
structure SysState where
  db : DB
  storage : List (List Str × Bytes)
deriving DecidableEq

/-- Write (or overwrite) the file at `p`. -/
def insertFile (fs : List (List Str × Bytes)) (p : List Str) (b : Bytes) :
    List (List Str × Bytes) := (p, b) :: fs

/-- Read the file at `p`, if present. -/
def lookupFile (fs : List (List Str × Bytes)) (p : List Str) : Option Bytes :=
  match fs.find? (fun e => e.1 == p) with
  | some e => some e.2
  | none => none

/-! ## Database operations

`app/db.py` is part of this repository but not among the provided source
files; the functions below are modelled from the spec (sections 4.3, 4.4
and 4.8), which documents their contracts. -/

/-- Does the document sit in the given (line, machine, doc_type) scope? -/
def sameIdentityBool (d : Document) (line machine docType : Str) : Bool :=
  d.line == line && d.machine == machine && d.docType == docType

/-- Modelled from the spec: a document "matches a content hash" when some of
its revisions recorded that content hash (the catalog's
`(line, machine, doc_type, content_hash)` lookup that catches a
renamed-but-identical file). -/
def documentHasHash (db : DB) (d : Document) (h : Bytes) : Bool :=
  db.revisions.any (fun r => r.documentId == d.id && r.fileHash == h)

/-- Modelled from the spec: `DocumentCatalog.resolve` — first an exact match
on (line, machine, doc_type, normalized name), then a match on
(line, machine, doc_type, content_hash). -/
def find_machine_document_by_name_or_hash (db : DB) (line machine docType name : Str)
    (fileHash : Bytes) : Option Document :=
  match db.documents.find? (fun d => sameIdentityBool d line machine docType && d.name == name) with
  | some d => some d
  | none =>
    db.documents.find? (fun d => sameIdentityBool d line machine docType &&
      documentHasHash db d fileHash)

/-- Modelled from the spec: one plus the maximum existing revision number of
the document, computed from the durable ledger, or `1` when the document has
no revisions (the fold over the empty list yields `0`). -/
def get_next_machine_document_revision_number (db : DB) (documentId : Nat) : Nat :=
  ((db.revisions.filter (fun r => r.documentId == documentId)).map
    (fun r => r.revisionNumber)).foldr Nat.max 0 + 1

/-- Modelled from the spec: `DocumentCatalog.create` allocates a fresh
document identity. (The spec's identical-identity failure cannot arise at
the one call site, which only creates after `resolve` found nothing.) -/
def create_machine_document (db : DB) (line machine docType name createdBy : Str) :
    DB × Nat :=
  (⟨db.documents ++ [⟨db.nextDocumentId, line, machine, docType, name, createdBy, true⟩],
    db.revisions, db.nextDocumentId + 1, db.nextRevisionId⟩, db.nextDocumentId)

/-- Modelled from the spec: `RevisionStore.append` — a pure append that fails
(`none`, the ConflictError of the error taxonomy) when the revision number
is not exactly one greater than the current maximum. -/
def add_machine_document_revision (db : DB) (documentId revisionNumber : Nat)
    (storedPath : List Str) (originalFilename : Str) (fileHash : Bytes)
    (createdBy : Str) (notes : Option Str) : Option DB :=
  if revisionNumber == get_next_machine_document_revision_number db documentId then
    some ⟨db.documents,
      db.revisions ++ [⟨db.nextRevisionId, documentId, revisionNumber, storedPath,
        originalFilename, fileHash, createdBy, notes⟩],
      db.nextDocumentId, db.nextRevisionId + 1⟩
  else none

/-- Modelled from the spec: deactivation flips the `active` flag of the one
document and touches nothing else. -/
def set_machine_document_active (db : DB) (documentId : Nat) (active : Bool) : DB :=
  ⟨db.documents.map (fun d =>
      if d.id == documentId then
        ⟨d.id, d.line, d.machine, d.docType, d.name, d.createdBy, active⟩
      else d),
    db.revisions, db.nextDocumentId, db.nextRevisionId⟩

/-- Modelled from the spec: `RevisionStore.list` returns the document's
revisions most-recent-first; the ledger list is append-ordered, so
most-recent-first is its reverse. -/
def list_machine_document_revisions (db : DB) (documentId : Nat) : List Revision :=
  (db.revisions.filter (fun r => r.documentId == documentId)).reverse

/-! ## Operations of `MachineHistoryUI` -/

/-- Outcome of `_save_document` as observed by its caller. -/
inductive SaveResult where
  | ok
  | copyFailed
  | appendFailed
  | conflict
deriving DecidableEq

/-- Outcome of `_recall_selected`. -/
inductive RecallResult where
  | ok (revisionId : Nat)
  | readonlyBlocked
  | noSelection
  | fileMissing
  | lineMachineMissing
  | documentMissing
  | conflict
deriving DecidableEq

/-- Outcome of `_export_revision`: the file written into the chosen
destination directory (name and contents), or a failure. -/
inductive ExportResult where
  | ok (filename : Str) (contents : Bytes)
  | fileMissing
deriving DecidableEq

/-- The target path computed inside `_store_file`:
`storage/<safe line>/<safe machine>/<doc_type>/<safe doc name>/rev_<n>_<ts><ext>`,
relative to `DATA_DIR`; `ext` is `Path(source_path).suffix`. -/
def store_target_path (srcName line machine docType docName : Str)
    (revisionNumber : Nat) (ts : Str) : List Str :=
  [("storage").data, safe_folder_name line, safe_folder_name machine, docType,
    safe_folder_name docName,
    ("rev_").data ++ decRep revisionNumber ++ '_' :: (ts ++ pathSuffix srcName)]

/-- Embedding of `_store_file`: allocate the target path for the given
identity and revision number (with `ts` the `datetime.now()` timestamp
string) and copy the source bytes there, returning the stored path recorded
in the ledger (`target_path.relative_to(DATA_DIR)`). -/
def store_file (st : SysState) (srcName : Str) (srcBytes : Bytes)
    (line machine docType docName : Str) (revisionNumber : Nat) (ts : Str) :
    SysState × List Str :=
  let path := store_target_path srcName line machine docType docName revisionNumber ts
  (⟨st.db, insertFile st.storage path srcBytes⟩, path)

/-- Embedding of `_save_document` for one source file, with `srcName` the
basename of the source path and `srcBytes` its contents. The two Booleans
inject the outcomes of the fallible external steps: `copyOk` is whether the
`shutil.copy2` call succeeds (an IOError otherwise), and `appendOk` is
whether the ledger append succeeds (the spec's ConflictError on a concurrent
revision-number collision otherwise); the sequential model itself never
produces such a collision, so the failure the spec discusses is injected
through the flag. On a Python exception the state reached so far persists. -/
def save_document (copyOk appendOk : Bool) (st : SysState) (srcName : Str)
    (srcBytes : Bytes) (line machine docType user ts : Str) :
    SysState × SaveResult :=
  let docName := normalize_doc_name srcName
  let fileHash := hashBytes srcBytes
  let resolved :=
    match find_machine_document_by_name_or_hash st.db line machine docType docName fileHash with
    | some d => (st.db, d.id)
    | none => create_machine_document st.db line machine docType docName user
  let db1 := resolved.1
  let documentId := resolved.2
  let revisionNumber := get_next_machine_document_revision_number db1 documentId
  if copyOk then
    let stored := store_file ⟨db1, st.storage⟩ srcName srcBytes line machine docType
      docName revisionNumber ts
    let st2 := stored.1
    let path := stored.2
    if appendOk then
      match add_machine_document_revision db1 documentId revisionNumber path srcName
        fileHash user none with
      | some db2 => (⟨db2, st2.storage⟩, SaveResult.ok)
      | none => (st2, SaveResult.conflict)
    else (st2, SaveResult.appendFailed)
  else (⟨db1, st.storage⟩, SaveResult.copyFailed)

/-- Embedding of `_selected_revision`: the revision with the selected id
among the selected document's revisions. -/
def selected_revision (db : DB) (documentId revisionId : Nat) : Option Revision :=
  (list_machine_document_revisions db documentId).find? (fun r => r.id == revisionId)

/-- The document row backing a document tree item (the tree displays
`doc_name` of the rows returned by `list_machine_documents`). -/
def find_document_by_id (db : DB) (documentId : Nat) : Option Document :=
  db.documents.find? (fun d => d.id == documentId)

/-- Embedding of `_recall_selected`. `documentId`/`revisionId` are the UI
selection, `line`/`machine` the filter variables (stripped and checked by
`_require_line_machine`), `selectedDocType` is `self._selected_doc_type`,
and `ts` the `datetime.now()` timestamp. A missing document row cannot occur
through the UI (the tree only lists ledger documents) and is mapped to
`documentMissing`. -/
def recall_selected (readonly : Bool) (st : SysState) (documentId revisionId : Nat)
    (line machine : Str) (selectedDocType : Option Str) (user ts : Str) :
    SysState × RecallResult :=
  if readonly then (st, RecallResult.readonlyBlocked)
  else
    match selected_revision st.db documentId revisionId with
    | none => (st, RecallResult.noSelection)
    | some rev =>
      match lookupFile st.storage rev.storedPath with
      | none => (st, RecallResult.fileMissing)
      | some storedBytes =>
        let lineS := pyStrip line
        let machineS := pyStrip machine
        if lineS.isEmpty || machineS.isEmpty then (st, RecallResult.lineMachineMissing)
        else
          match find_document_by_id st.db documentId with
          | none => (st, RecallResult.documentMissing)
          | some doc =>
            let docName := doc.name
            let revisionNumber := get_next_machine_document_revision_number st.db documentId
            let storedName := rev.storedPath.getLast?.getD []
            let stored := store_file st storedName storedBytes lineS machineS
              (selectedDocType.getD (("program").data)) docName revisionNumber ts
            let st2 := stored.1
            let newPath := stored.2
            let fileHash := hashBytes storedBytes
            match add_machine_document_revision st.db documentId revisionNumber newPath
              rev.originalFilename fileHash user (some (("Recalled previous revision").data)) with
            | some db2 => (⟨db2, st2.storage⟩, RecallResult.ok st.db.nextRevisionId)
            | none => (st2, RecallResult.conflict)

/-- Embedding of `_export_revision` for a chosen destination directory:
if the stored file is missing, report failure and copy nothing; otherwise
copy its bytes unmodified into the destination under
`<doc_name>_rev<revision_number><ext>`, `ext` being `stored_path.suffix`. -/
def export_revision (st : SysState) (docName : Str) (rev : Revision) : ExportResult :=
  match lookupFile st.storage rev.storedPath with
  | none => ExportResult.fileMissing
  | some bs =>
    let ext := pySuffixOfName (rev.storedPath.getLast?.getD [])
    ExportResult.ok (docName ++ ("_rev").data ++ decRep rev.revisionNumber ++ ext) bs

/-- Embedding of `_delete_document` (deactivation): blocked in readonly
mode; `confirmed` is the answer to the `askyesno` dialog. -/
def delete_document (readonly confirmed : Bool) (st : SysState) (documentId : Nat) :
    SysState :=
  if readonly then st
  else if confirmed then ⟨set_machine_document_active st.db documentId false, st.storage⟩
  else st

/-- One file of an import batch, with the injected outcomes of its fallible
external steps (see `save_document`). -/
structure ImportFile where
  srcName : Str
  srcBytes : Bytes
  copyOk : Bool
  appendOk : Bool

/-- Embedding of `_import_documents`: blocked in readonly mode; requires a
line and machine selection (stripped); processes the chosen files one by
one, each failure reported individually while the loop continues. -/
def import_documents (readonly : Bool) (st : SysState) (line machine docType : Str)
    (files : List ImportFile) (user ts : Str) : SysState :=
  if readonly then st
  else
    let lineS := pyStrip line
    let machineS := pyStrip machine
    if lineS.isEmpty || machineS.isEmpty then st
    else if files.isEmpty then st
    else files.foldl
      (fun s f => (save_document f.copyOk f.appendOk s f.srcName f.srcBytes lineS machineS
        docType user ts).1) st

/-! ## Traces -/

/-- One user-level operation on the document store. -/
inductive Op where
  | importOne (copyOk appendOk : Bool) (srcName : Str) (srcBytes : Bytes)
      (line machine docType user ts : Str)
  | recallOp (documentId revisionId : Nat) (line machine : Str)
      (selectedDocType : Option Str) (user ts : Str)
  | deactivateOp (documentId : Nat)

/-- Apply one operation (outside readonly mode, with the deactivation
confirmed), keeping the state that persists even when the operation
reports a failure. -/
def runOp (st : SysState) (op : Op) : SysState :=
  match op with
  | .importOne copyOk appendOk srcName srcBytes line machine docType user ts =>
    (save_document copyOk appendOk st srcName srcBytes line machine docType user ts).1
  | .recallOp documentId revisionId line machine selectedDocType user ts =>
    (recall_selected false st documentId revisionId line machine selectedDocType user ts).1
  | .deactivateOp documentId => delete_document false true st documentId

/-- The empty initial state (fresh ledger, empty storage root). -/
def initState : SysState := ⟨⟨[], [], 1, 1⟩, []⟩

/-- Run a sequence of operations from the initial state. -/
def runOps (ops : List Op) : SysState := ops.foldl runOp initState

/-- The revision numbers recorded for a document, in ledger order. -/
def revNums (db : DB) (d : Nat) : List Nat :=
  (db.revisions.filter (fun r => r.documentId == d)).map (fun r => r.revisionNumber)

/-- The ledger invariant of spec section 3: every document's revision
numbers are exactly `1, 2, …, N` in order. -/
def DBInvariant (db : DB) : Prop :=
  ∀ d, revNums db d = List.range' 1 (revNums db d).length

/-! ## Concrete scenarios -/

/-- A fixed `datetime.now()` timestamp string. -/
def ts0 : Str := ("20240101000000").data

/-- Two imports of files named `x.txt`, with different contents, into the
distinct lines `A B` and `A_B` (same machine and type), within the same
time unit. -/
def collideOps : List Op :=
  [Op.importOne true true (("x.txt").data) [1] (("A B").data) (("M").data)
    (("program").data) (("u").data) ts0,
   Op.importOne true true (("x.txt").data) [2] (("A_B").data) (("M").data)
    (("program").data) (("u").data) ts0]

/-- The state after `collideOps`. -/
def stCollide : SysState := runOps collideOps

/-- The one storage path both imports of `collideOps` are allocated. -/
def pColl : List Str :=
  [("storage").data, ("A_B").data, ("M").data, ("program").data, ("x").data,
    ("rev_1_20240101000000.txt").data]

/-- Placeholder revision used as the default of `List.getD`. -/
def arbitraryRevision : Revision := ⟨0, 0, 0, [], [], [], [], none⟩

/-- The recall of revision 1 of document 1 performed on `stCollide` (the
stored bytes at that revision's path are `[2]`, its recorded hash `[1]`). -/
def recallOnCollide : SysState × RecallResult :=
  recall_selected false stCollide 1 1 (("A B").data) (("M").data)
    (some (("program").data)) (("u").data) ts0

/-- C1: when the copy into storage succeeds but the ledger append then fails
(injected via `appendOk := false`, the spec's concurrent revision-number
collision), `_save_document` leaves the copied file in storage with no
revision record referencing it — the required cleanup does not happen; and
when the copy itself fails, no ledger entry is created and nothing is
stored. -/
theorem c1_orphan_left_on_append_failure :
    (save_document true false initState (("a.txt").data) [1] (("L").data) (("M").data)
        (("program").data) (("u").data) ts0).2 = SaveResult.appendFailed ∧
    (save_document true false initState (("a.txt").data) [1] (("L").data) (("M").data)
        (("program").data) (("u").data) ts0).1.db.revisions = [] ∧
    lookupFile (save_document true false initState (("a.txt").data) [1] (("L").data)
        (("M").data) (("program").data) (("u").data) ts0).1.storage
      [("storage").data, ("L").data, ("M").data, ("program").data, ("a").data,
        ("rev_1_20240101000000.txt").data] = some [1] ∧
    (save_document false true initState (("a.txt").data) [1] (("L").data) (("M").data)
        (("program").data) (("u").data) ts0).2 = SaveResult.copyFailed ∧
    (save_document false true initState (("a.txt").data) [1] (("L").data) (("M").data)
        (("program").data) (("u").data) ts0).1.storage = [] ∧
    (save_document false true initState (("a.txt").data) [1] (("L").data) (("M").data)
        (("program").data) (("u").data) ts0).1.db.revisions = [] := by
  decide

/-- C2: recalling revision 1 of document 1 in `stCollide`, whose stored
bytes `[2]` no longer hash to the revision's recorded content hash `[1]`,
does not fail with an IntegrityError: the recall succeeds and appends a new
revision carrying the hash of the current bytes. -/
theorem c2_recall_skips_integrity_check :
    (selected_revision stCollide.db 1 1).map (fun r => r.fileHash) = some [1] ∧
    (selected_revision stCollide.db 1 1).map
        (fun r => lookupFile stCollide.storage r.storedPath) = some (some [2]) ∧
    hashBytes [2] ≠ [1] ∧
    recallOnCollide.2 = RecallResult.ok 3 ∧
    recallOnCollide.1.db.revisions.map (fun r => r.fileHash) = [[1], [2], [2]] := by
  decide

/-- C5 counterexample: after the two imports of `collideOps`, the ledger
holds two distinct revisions (of two distinct documents, in the distinct
lines `A B` and `A_B`) whose allocated stored paths are equal — the
allocation is not collision-free across lines. -/
theorem c5_counterexample_colliding_paths :
    stCollide.db.revisions.map (fun r => r.id) = [1, 2] ∧
    stCollide.db.revisions.map (fun r => r.documentId) = [1, 2] ∧
    stCollide.db.documents.map (fun d => d.line) = [("A B").data, ("A_B").data] ∧
    (("A B").data : Str) ≠ ("A_B").data ∧
    stCollide.db.revisions.map (fun r => r.storedPath) = [pColl, pColl] := by
  decide

/-- C7 counterexample: in `stCollide`, revision 1's stored file exists (its
path was overwritten by the colliding second import), so export succeeds and
copies the bytes `[2]` — but their hash differs from the revision's recorded
content hash `[1]`; the claimed equality `hash(export(revision)) =
revision.content_hash` fails. -/
theorem c7_counterexample_export_hash_mismatch :
    (stCollide.db.revisions.getD 0 arbitraryRevision).fileHash = [1] ∧
    lookupFile stCollide.storage
      (stCollide.db.revisions.getD 0 arbitraryRevision).storedPath = some [2] ∧
    export_revision stCollide (("x").data) (stCollide.db.revisions.getD 0 arbitraryRevision) =
      ExportResult.ok (("x_rev1.txt").data) [2] ∧
    hashBytes [2] ≠ (stCollide.db.revisions.getD 0 arbitraryRevision).fileHash := by
  decide

/-- C8 counterexample: the successful recall of revision 1 of document 1 in
`stCollide` creates a new revision whose content hash `[2]` differs from the
source revision's recorded content hash `[1]` (the source revision's stored
path was overwritten by the colliding import), refuting the claimed equality
of the two hashes. -/
theorem c8_counterexample_recall_hash_differs :
    recallOnCollide.2 = RecallResult.ok 3 ∧
    (recallOnCollide.1.db.revisions.getD 2 arbitraryRevision).documentId = 1 ∧
    (recallOnCollide.1.db.revisions.getD 2 arbitraryRevision).fileHash = [2] ∧
    (selected_revision stCollide.db 1 1).map (fun r => r.fileHash) = some [1] ∧
    ([2] : Bytes) ≠ [1] := by
  decide

/-! ## Name normalization: claim-side definitions -/

/-- The name normalization exactly as claim C6 words it: strip the
extension, then replace path-separator-like characters and underscores with
single spaces, then collapse internal whitespace runs and trim. -/
def claimNormalizeC6 (f : Str) : Str :=
  joinSpace (pySplitWs (pyReplaceChar '_' ' ' (pyReplaceChar '/' ' ' (stemOfName f))))

/-- Modelled from the amended claim: for a filename, take the final path
component (the last nonempty component that is not `.`) — here restricted to
inputs that are already bare names — strip the extension (the part from the
last dot onward, when that dot is neither the first nor the last character),
replace underscores with single spaces, and collapse internal whitespace
runs to single spaces, trimming the ends. -/
def normalizeAmendedSpec (f : Str) : Str :=
  joinSpace (pySplitWs (pyReplaceChar '_' ' ' (stemOfName f)))

/-- C6 counterexample: on the filename `a/b.txt` the source normalization
keeps only the final path component, producing `b`, whereas the claim's
replace-separators-with-spaces description produces `a b`. -/
theorem c6_counterexample_separator_handling :
    normalize_doc_name (("a/b.txt").data) = ("b").data ∧
    claimNormalizeC6 (("a/b.txt").data) = ("a b").data ∧
    normalize_doc_name (("a/b.txt").data) ≠ claimNormalizeC6 (("a/b.txt").data) := by
  decide

/-! ## Name normalization lemmas -/

theorem splitCharGo_no_sep (sep : Char) :
    ∀ s cur, sep ∉ s → splitCharGo sep cur s = [cur.reverse ++ s] := by
  intro s
  induction s with
  | nil => intro cur _; simp [splitCharGo]
  | cons c cs ih =>
    intro cur h
    simp only [List.mem_cons, not_or] at h
    have hc : (c == sep) = false := by
      simp only [beq_eq_false_iff_ne]
      exact fun hh => h.1 hh.symm
    rw [splitCharGo, hc]
    simp only [Bool.false_eq_true, if_false]
    rw [ih (c :: cur) h.2]
    simp

theorem pathName_eq_self (f : Str) (hs : '/' ∉ f) (hd : f ≠ ['.']) : pathName f = f := by
  unfold pathName splitChar
  rw [splitCharGo_no_sep '/' f [] hs]
  simp only [List.reverse_nil, List.nil_append]
  by_cases hf : f = []
  · subst hf; simp
  · have h1 : (!f.isEmpty && !(f == ['.'])) = true := by
      simp [List.isEmpty_iff, hf, hd]
    simp [List.filter, h1]

theorem splitWsGo_all_ws :
    ∀ t, (∀ c ∈ t, pyIsWs c = true) → ∀ cur,
      splitWsGo cur t = if cur.isEmpty then [] else [cur.reverse] := by
  intro t
  induction t with
  | nil => intro _ cur; rfl
  | cons c cs ih =>
    intro h cur
    have hc : pyIsWs c = true := h c (List.mem_cons_self c cs)
    have hcs : ∀ x ∈ cs, pyIsWs x = true := fun x hx => h x (List.mem_cons_of_mem c hx)
    rw [splitWsGo, hc]
    simp only [if_true]
    by_cases hcur : cur.isEmpty
    · rw [if_pos hcur, if_pos hcur, ih hcs []]
      rfl
    · rw [if_neg hcur, if_neg hcur, ih hcs []]
      rfl

theorem splitWsGo_append_ws :
    ∀ s t cur, (∀ c ∈ t, pyIsWs c = true) →
      splitWsGo cur (s ++ t) = splitWsGo cur s := by
  intro s
  induction s with
  | nil =>
    intro t cur h
    rw [List.nil_append, splitWsGo_all_ws t h cur]
    rfl
  | cons c cs ih =>
    intro t cur h
    rw [List.cons_append, splitWsGo, splitWsGo]
    by_cases hc : pyIsWs c = true
    · rw [hc]
      simp only [if_true]
      by_cases hcur : cur.isEmpty
      · rw [if_pos hcur, if_pos hcur, ih t [] h]
      · rw [if_neg hcur, if_neg hcur, ih t [] h]
    · rw [Bool.not_eq_true] at hc
      rw [hc]
      simp only [Bool.false_eq_true, if_false]
      exact ih t (c :: cur) h

theorem splitWsGo_dropWhile :
    ∀ s, splitWsGo [] (s.dropWhile pyIsWs) = splitWsGo [] s := by
  intro s
  induction s with
  | nil => rfl
  | cons c cs ih =>
    by_cases hc : pyIsWs c = true
    · rw [List.dropWhile_cons_of_pos hc, ih, splitWsGo, hc]
      simp [List.isEmpty]
    · rw [Bool.not_eq_true] at hc
      rw [List.dropWhile_cons_of_neg (by simp [hc])]

theorem pySplitWs_pyStrip (s : Str) : pySplitWs (pyStrip s) = pySplitWs s := by
  unfold pyStrip pySplitWs
  have hdecomp : s.dropWhile pyIsWs =
      ((s.dropWhile pyIsWs).reverse.dropWhile pyIsWs).reverse ++
        ((s.dropWhile pyIsWs).reverse.takeWhile pyIsWs).reverse := by
    conv_lhs => rw [← List.reverse_reverse (s.dropWhile pyIsWs),
      ← List.takeWhile_append_dropWhile (p := pyIsWs) (l := (s.dropWhile pyIsWs).reverse)]
    rw [List.reverse_append]
  have hws : ∀ c ∈ ((s.dropWhile pyIsWs).reverse.takeWhile pyIsWs).reverse,
      pyIsWs c = true := by
    intro c hc
    rw [List.mem_reverse] at hc
    exact List.mem_takeWhile_imp hc
  calc splitWsGo [] ((s.dropWhile pyIsWs).reverse.dropWhile pyIsWs).reverse
      = splitWsGo [] (((s.dropWhile pyIsWs).reverse.dropWhile pyIsWs).reverse ++
          ((s.dropWhile pyIsWs).reverse.takeWhile pyIsWs).reverse) := by
        rw [splitWsGo_append_ws _ _ [] hws]
    _ = splitWsGo [] (s.dropWhile pyIsWs) := by rw [← hdecomp]
    _ = splitWsGo [] s := splitWsGo_dropWhile s

/-- C6 (amended): for a filename with no path separator (the situation in
the program: the import passes `os.path.basename(path)`) other than the
special name `.`, the source normalization agrees with the amended
description — take the stem (extension stripped under the pathlib edge
rule), replace underscores with spaces, collapse internal whitespace runs
to single spaces and trim. -/
theorem c6_normalize_matches_amended_spec (f : Str) (hs : '/' ∉ f) (hd : f ≠ ['.']) :
    normalize_doc_name f = normalizeAmendedSpec f := by
  unfold normalize_doc_name normalizeAmendedSpec pathStem
  rw [pathName_eq_self f hs hd]
  dsimp only
  rw [pySplitWs_pyStrip]

/-- C6 witness: a concrete instance of the amended normalization theorem. -/
theorem c6_witness :
    ('/' ∉ ("My__File  v2.txt").data) ∧ (("My__File  v2.txt").data ≠ ['.']) ∧
    normalize_doc_name (("My__File  v2.txt").data) =
      normalizeAmendedSpec (("My__File  v2.txt").data) :=
  ⟨by decide, by decide, c6_normalize_matches_amended_spec _ (by decide) (by decide)⟩

/-! ## Path allocation lemmas -/

/-- The character-level effect of `_safe_folder_name`'s two replacements. -/
def sanitizeChar (c : Char) : Char :=
  if c == '/' then '_' else if c == ' ' then '_' else c

theorem sanitizeChar_of_plain (c : Char) (h1 : c ≠ '/') (h2 : c ≠ ' ') :
    sanitizeChar c = c := by
  unfold sanitizeChar
  rw [if_neg (by simp [h1]), if_neg (by simp [h2])]

theorem safe_folder_name_eq_map (v : Str) (hv : v ≠ []) :
    safe_folder_name v = v.map sanitizeChar := by
  unfold safe_folder_name
  dsimp only
  rw [List.map_map]
  have hm : ((fun c => if c == ' ' then '_' else c) ∘ fun c => if c == '/' then '_' else c) =
      sanitizeChar := by
    funext c
    simp only [Function.comp_apply]
    by_cases h1 : c = '/'
    · subst h1; rfl
    · have h1f : (c == '/') = false := by simp [h1]
      unfold sanitizeChar
      simp only [h1f, Bool.false_eq_true, if_false]
  rw [hm]
  have hne : (v.map sanitizeChar).isEmpty = false := by
    cases v with
    | nil => exact absurd rfl hv
    | cons c cs => rfl
  rw [hne]
  simp

theorem sanitizeChar_inj (a b : Char) (ha1 : a ≠ '_') (ha2 : a ≠ '/')
    (hb1 : b ≠ '_') (hb2 : b ≠ '/') (h : sanitizeChar a = sanitizeChar b) : a = b := by
  by_cases has : a = ' ' <;> by_cases hbs : b = ' '
  · rw [has, hbs]
  · rw [has, sanitizeChar_of_plain b hb2 hbs] at h
    exact absurd h.symm hb1
  · rw [hbs, sanitizeChar_of_plain a ha2 has] at h
    exact absurd h ha1
  · rw [sanitizeChar_of_plain a ha2 has, sanitizeChar_of_plain b hb2 hbs] at h
    exact h

theorem map_sanitizeChar_inj :
    ∀ a b : Str, ('_' ∉ a) → ('/' ∉ a) → ('_' ∉ b) → ('/' ∉ b) →
      a.map sanitizeChar = b.map sanitizeChar → a = b := by
  intro a
  induction a with
  | nil =>
    intro b _ _ _ _ h
    cases b with
    | nil => rfl
    | cons c cs => simp at h
  | cons c cs ih =>
    intro b ha1 ha2 hb1 hb2 h
    cases b with
    | nil => simp at h
    | cons d ds =>
      simp only [List.map_cons, List.cons.injEq] at h
      simp only [List.mem_cons, not_or] at ha1 ha2 hb1 hb2
      have hc : c = d := sanitizeChar_inj c d (fun hh => ha1.1 hh.symm)
        (fun hh => ha2.1 hh.symm) (fun hh => hb1.1 hh.symm) (fun hh => hb2.1 hh.symm) h.1
      rw [hc, ih ds ha1.2 ha2.2 hb1.2 hb2.2 h.2]

theorem safe_folder_name_inj (a b : Str) (ha1 : '_' ∉ a) (ha2 : '/' ∉ a) (hae : a ≠ [])
    (hb1 : '_' ∉ b) (hb2 : '/' ∉ b) (hbe : b ≠ [])
    (h : safe_folder_name a = safe_folder_name b) : a = b := by
  rw [safe_folder_name_eq_map a hae, safe_folder_name_eq_map b hbe] at h
  exact map_sanitizeChar_inj a b ha1 ha2 hb1 hb2 h

theorem takeWhile_until_underscore :
    ∀ xs t : Str, (∀ c ∈ xs, c ≠ '_') →
      (xs ++ '_' :: t).takeWhile (fun c => !(c == '_')) = xs := by
  intro xs
  induction xs with
  | nil =>
    intro t _
    simp [List.takeWhile]
  | cons c cs ih =>
    intro t h
    have hc : c ≠ '_' := h c (List.mem_cons_self c cs)
    have hcs : ∀ x ∈ cs, x ≠ '_' := fun x hx => h x (List.mem_cons_of_mem c hx)
    rw [List.cons_append, List.takeWhile_cons_of_pos (by simp [hc]), ih t hcs]

theorem rev_filename_inj (r1 r2 : Nat) (t1 t2 : Str)
    (h : ("rev_").data ++ decRep r1 ++ '_' :: t1 = ("rev_").data ++ decRep r2 ++ '_' :: t2) :
    r1 = r2 := by
  have h' : ("rev_").data ++ (decRep r1 ++ '_' :: t1) =
      ("rev_").data ++ (decRep r2 ++ '_' :: t2) := by
    rw [← List.append_assoc, ← List.append_assoc]
    exact h
  have h2 : decRep r1 ++ '_' :: t1 = decRep r2 ++ '_' :: t2 := List.append_cancel_left h' 
  have h3 : (decRep r1 ++ '_' :: t1).takeWhile (fun c => !(c == '_')) =
      (decRep r2 ++ '_' :: t2).takeWhile (fun c => !(c == '_')) := by rw [h2]
  rw [takeWhile_until_underscore _ _ (decRep_no_underscore r1),
    takeWhile_until_underscore _ _ (decRep_no_underscore r2)] at h3
  exact decRep_inj h3

/-- C5 (amended): within one (line, machine, doc_type) scope, the allocated
stored paths are collision-free: two allocations for distinct normalized,
nonempty document names, or for the same name but distinct revision
numbers, always yield distinct paths — for any timestamps, source names and
extensions. (Across lines or machines whose sanitized folder names
coincide, or for names normalizing to the empty string, collisions are
possible: see the counterexample.) -/
theorem c5_allocation_collision_free_within_scope
    (line machine docType n1 n2 src1 src2 ts1 ts2 : Str) (r1 r2 : Nat)
    (h1u : '_' ∉ n1) (h1s : '/' ∉ n1) (h1e : n1 ≠ [])
    (h2u : '_' ∉ n2) (h2s : '/' ∉ n2) (h2e : n2 ≠ [])
    (hdiff : n1 ≠ n2 ∨ r1 ≠ r2) :
    store_target_path src1 line machine docType n1 r1 ts1 ≠
      store_target_path src2 line machine docType n2 r2 ts2 := by
  intro heq
  unfold store_target_path at heq
  simp only [List.cons.injEq, and_true] at heq
  obtain ⟨-, -, -, -, hname, hfile⟩ := heq
  rcases hdiff with hd | hd
  · exact hd (safe_folder_name_inj n1 n2 h1u h1s h1e h2u h2s h2e hname)
  · exact hd (rev_filename_inj r1 r2 _ _ hfile)

/-- C5 witness: two revisions of the same document (same nonempty
normalized name, revision numbers 1 and 2) receive distinct paths. -/
theorem c5_witness :
    ('_' ∉ ("doc a").data) ∧ ('/' ∉ ("doc a").data) ∧ (("doc a").data : Str) ≠ [] ∧
    store_target_path (("x.txt").data) (("L").data) (("M").data) (("program").data)
        (("doc a").data) 1 ts0 ≠
      store_target_path (("x.txt").data) (("L").data) (("M").data) (("program").data)
        (("doc a").data) 2 ts0 :=
  ⟨by decide, by decide, by decide,
    c5_allocation_collision_free_within_scope _ _ _ _ _ _ _ _ _ 1 2
      (by decide) (by decide) (by decide) (by decide) (by decide) (by decide)
      (Or.inr (by decide))⟩

/-! ## Ledger invariant -/

/-- The revision numbers a ledger list records for document `d`. -/
def revNumsRL (revs : List Revision) (d : Nat) : List Nat :=
  (revs.filter (fun r => r.documentId == d)).map (fun r => r.revisionNumber)

/-- The ledger invariant on a bare revision list. -/
def LedgerInvariant (revs : List Revision) : Prop :=
  ∀ d, revNumsRL revs d = List.range' 1 (revNumsRL revs d).length

theorem revNums_def (db : DB) (d : Nat) : revNums db d = revNumsRL db.revisions d := rfl

theorem getNext_def (db : DB) (d : Nat) :
    get_next_machine_document_revision_number db d =
      (revNumsRL db.revisions d).foldr Nat.max 0 + 1 := rfl

theorem range'_concat_one (s n : Nat) :
    List.range' s (n + 1) = List.range' s n ++ [s + n] := by
  induction n generalizing s with
  | zero => simp [List.range']
  | succ n ih =>
    rw [List.range'_succ, ih (s + 1), List.range'_succ]
    simp [List.cons_append]
    omega

theorem foldr_max_range' (n : Nat) : ∀ a, (List.range' 1 n).foldr Nat.max a = Nat.max a n := by
  induction n with
  | zero => intro a; simp [List.range']
  | succ n ih =>
    intro a
    rw [range'_concat_one, List.foldr_append]
    simp only [List.foldr_cons, List.foldr_nil]
    rw [ih (Nat.max (1 + n) a)]
    simp only [Nat.max_def]
    split_ifs <;> omega

theorem revNumsRL_snoc (revs : List Revision) (r : Revision) (d : Nat) :
    revNumsRL (revs ++ [r]) d =
      revNumsRL revs d ++ (if r.documentId == d then [r.revisionNumber] else []) := by
  unfold revNumsRL
  rw [List.filter_append, List.map_append]
  congr 1
  by_cases hd : (r.documentId == d) = true
  · simp [List.filter, hd]
  · simp [List.filter, hd]

theorem foldr_max_of_inv (revs : List Revision) (h : LedgerInvariant revs) (d : Nat) :
    (revNumsRL revs d).foldr Nat.max 0 = (revNumsRL revs d).length := by
  conv_lhs => rw [h d]
  rw [foldr_max_range']
  simp only [Nat.max_def]
  split_ifs <;> omega

theorem ledgerInv_nil : LedgerInvariant [] := by
  intro d
  rfl

theorem ledgerInv_snoc (revs : List Revision) (h : LedgerInvariant revs) (r : Revision)
    (hn : r.revisionNumber = (revNumsRL revs r.documentId).foldr Nat.max 0 + 1) :
    LedgerInvariant (revs ++ [r]) := by
  intro d
  rw [revNumsRL_snoc]
  by_cases hd : (r.documentId == d) = true
  · rw [beq_iff_eq] at hd
    subst hd
    rw [if_pos (by simp)]
    rw [hn, foldr_max_of_inv revs h r.documentId]
    calc revNumsRL revs r.documentId ++ [(revNumsRL revs r.documentId).length + 1]
        = List.range' 1 ((revNumsRL revs r.documentId).length + 1) := by
          nth_rewrite 1 [h r.documentId]
          rw [range'_concat_one, Nat.add_comm 1 ((revNumsRL revs r.documentId).length)]
      _ = List.range' 1
            ((revNumsRL revs r.documentId ++
              [(revNumsRL revs r.documentId).length + 1]).length) := by
          simp [List.length_append]
  · rw [if_neg hd, List.append_nil]
    exact h d

theorem add_at_next (db : DB) (dId : Nat) (p : List Str) (ofn : Str) (fh : Bytes)
    (u : Str) (nts : Option Str) :
    add_machine_document_revision db dId
        (get_next_machine_document_revision_number db dId) p ofn fh u nts =
      some ⟨db.documents,
        db.revisions ++ [⟨db.nextRevisionId, dId,
          get_next_machine_document_revision_number db dId, p, ofn, fh, u, nts⟩],
        db.nextDocumentId, db.nextRevisionId + 1⟩ := by
  unfold add_machine_document_revision
  rw [if_pos (beq_self_eq_true _)]

theorem save_document_revisions_cases (c a : Bool) (st : SysState) (n : Str) (b : Bytes)
    (l m t u ts : Str) :
    (save_document c a st n b l m t u ts).1.db.revisions = st.db.revisions ∨
    ∃ r : Revision,
      (save_document c a st n b l m t u ts).1.db.revisions = st.db.revisions ++ [r] ∧
      r.revisionNumber = (revNumsRL st.db.revisions r.documentId).foldr Nat.max 0 + 1 := by
  unfold save_document store_file
  dsimp only
  cases hf : find_machine_document_by_name_or_hash st.db l m t (normalize_doc_name n)
      (hashBytes b) with
  | some d =>
    dsimp only
    cases c with
    | false => left; rfl
    | true =>
      cases a with
      | false => left; rfl
      | true =>
        rw [add_at_next]
        dsimp only
        exact Or.inr ⟨_, rfl, rfl⟩
  | none =>
    unfold create_machine_document
    dsimp only
    cases c with
    | false => left; rfl
    | true =>
      cases a with
      | false => left; rfl
      | true =>
        rw [add_at_next]
        dsimp only
        exact Or.inr ⟨_, rfl, rfl⟩

theorem recall_selected_revisions_cases (ro : Bool) (st : SysState)
    (dId rId : Nat) (l m : Str) (sdt : Option Str) (u ts : Str) :
    (recall_selected ro st dId rId l m sdt u ts).1.db.revisions = st.db.revisions ∨
    ∃ r : Revision,
      (recall_selected ro st dId rId l m sdt u ts).1.db.revisions = st.db.revisions ++ [r] ∧
      r.revisionNumber = (revNumsRL st.db.revisions r.documentId).foldr Nat.max 0 + 1 := by
  unfold recall_selected store_file
  cases ro with
  | true => left; rfl
  | false =>
    dsimp only
    cases hs : selected_revision st.db dId rId with
    | none => left; rfl
    | some rev =>
      dsimp only
      cases hl : lookupFile st.storage rev.storedPath with
      | none => left; rfl
      | some bs =>
        dsimp only
        by_cases hlm : ((pyStrip l).isEmpty || (pyStrip m).isEmpty) = true
        · rw [if_pos hlm]
          left; rfl
        · rw [if_neg hlm]
          cases hd : find_document_by_id st.db dId with
          | none => left; rfl
          | some doc =>
            dsimp only
            rw [add_at_next]
            dsimp only
            exact Or.inr ⟨_, rfl, rfl⟩

theorem delete_document_db_frame (ro conf : Bool) (st : SysState) (dId : Nat) :
    (delete_document ro conf st dId).db.revisions = st.db.revisions ∧
    (delete_document ro conf st dId).storage = st.storage := by
  unfold delete_document
  cases ro with
  | true => exact ⟨rfl, rfl⟩
  | false =>
    cases conf with
    | true => exact ⟨rfl, rfl⟩
    | false => exact ⟨rfl, rfl⟩

theorem ledgerInv_runOp (st : SysState) (op : Op)
    (h : LedgerInvariant st.db.revisions) : LedgerInvariant (runOp st op).db.revisions := by
  cases op with
  | importOne c a n b l m t u ts =>
    rcases save_document_revisions_cases c a st n b l m t u ts with hc | ⟨r, hc, hn⟩
    · rw [runOp, hc]; exact h
    · rw [runOp, hc]; exact ledgerInv_snoc _ h r hn
  | recallOp dId rId l m sdt u ts =>
    rcases recall_selected_revisions_cases false st dId rId l m sdt u ts with hc | ⟨r, hc, hn⟩
    · rw [runOp, hc]; exact h
    · rw [runOp, hc]; exact ledgerInv_snoc _ h r hn
  | deactivateOp dId =>
    rw [runOp, (delete_document_db_frame false true st dId).1]
    exact h

theorem ledgerInv_runOps : ∀ (ops : List Op) (st : SysState),
    LedgerInvariant st.db.revisions → LedgerInvariant ((ops.foldl runOp st).db.revisions) := by
  intro ops
  induction ops with
  | nil => intro st h; exact h
  | cons op ops ih =>
    intro st h
    exact ih (runOp st op) (ledgerInv_runOp st op h)

/-- C3: after any sequence of imports, recalls and deactivations from the
empty store, every document's recorded revision numbers are exactly
`1, 2, …, N` (strictly increasing, no gaps, no duplicates, starting at 1,
for its `N` revisions), and the next revision number the ledger computes is
`N + 1` — one plus the current maximum, which is `1` when no revisions
exist. -/
theorem c3_revision_numbers_are_initial_segment (ops : List Op) (d : Nat) :
    revNums (runOps ops).db d = List.range' 1 (revNums (runOps ops).db d).length ∧
    get_next_machine_document_revision_number (runOps ops).db d =
      (revNums (runOps ops).db d).length + 1 := by
  have hinv : LedgerInvariant (runOps ops).db.revisions :=
    ledgerInv_runOps ops initState ledgerInv_nil
  refine ⟨hinv d, ?_⟩
  rw [getNext_def, foldr_max_of_inv _ hinv d]
  rfl

/-! ## Dedup resolution -/

theorem find_none_no_match (db : DB) (l m t nm : Str) (h : Bytes)
    (hf : find_machine_document_by_name_or_hash db l m t nm h = none) :
    ∀ d ∈ db.documents, sameIdentityBool d l m t = true →
      d.name ≠ nm ∧ documentHasHash db d h = false := by
  unfold find_machine_document_by_name_or_hash at hf
  cases h1 : db.documents.find? (fun d => sameIdentityBool d l m t && d.name == nm) with
  | some d =>
    rw [h1] at hf
    exact absurd hf (by simp)
  | none =>
    rw [h1] at hf
    intro d hd hsame
    have hn1 := List.find?_eq_none.mp h1 d hd
    have hn2 := List.find?_eq_none.mp hf d hd
    constructor
    · intro hname
      exact hn1 (by simp [hsame, hname])
    · by_contra hh
      rw [Bool.not_eq_false] at hh
      exact hn2 (by simp [hsame, hh])

theorem find_some_matches (db : DB) (l m t nm : Str) (h : Bytes) (d0 : Document)
    (hf : find_machine_document_by_name_or_hash db l m t nm h = some d0) :
    d0 ∈ db.documents ∧ sameIdentityBool d0 l m t = true ∧
      (d0.name = nm ∨ documentHasHash db d0 h = true) := by
  unfold find_machine_document_by_name_or_hash at hf
  cases h1 : db.documents.find? (fun d => sameIdentityBool d l m t && d.name == nm) with
  | some d =>
    rw [h1] at hf
    have hd0 : d = d0 := by simpa using hf
    subst hd0
    have hp := List.find?_some h1
    simp only [Bool.and_eq_true, beq_iff_eq] at hp
    exact ⟨List.mem_of_find?_eq_some h1, hp.1, Or.inl hp.2⟩
  | none =>
    rw [h1] at hf
    have hp := List.find?_some hf
    simp only [Bool.and_eq_true] at hp
    exact ⟨List.mem_of_find?_eq_some hf, hp.1, Or.inr hp.2⟩

theorem save_document_resolved (st : SysState) (n : Str) (b : Bytes) (l m t u ts : Str)
    (d0 : Document)
    (hf : find_machine_document_by_name_or_hash st.db l m t (normalize_doc_name n)
      (hashBytes b) = some d0) :
    (save_document true true st n b l m t u ts).1.db.documents = st.db.documents ∧
    ∃ r : Revision,
      (save_document true true st n b l m t u ts).1.db.revisions = st.db.revisions ++ [r] ∧
      r.documentId = d0.id := by
  unfold save_document store_file
  dsimp only
  rw [hf]
  dsimp only
  rw [add_at_next]
  dsimp only
  exact ⟨rfl, _, rfl, rfl⟩

theorem save_document_created (st : SysState) (n : Str) (b : Bytes) (l m t u ts : Str)
    (hf : find_machine_document_by_name_or_hash st.db l m t (normalize_doc_name n)
      (hashBytes b) = none) :
    ∃ nd : Document,
      (save_document true true st n b l m t u ts).1.db.documents = st.db.documents ++ [nd] ∧
      nd.name = normalize_doc_name n ∧ nd.line = l ∧ nd.machine = m ∧ nd.docType = t ∧
      ∃ r : Revision,
        (save_document true true st n b l m t u ts).1.db.revisions = st.db.revisions ++ [r] ∧
        r.documentId = nd.id := by
  unfold save_document store_file
  dsimp only
  rw [hf]
  unfold create_machine_document
  dsimp only
  rw [add_at_next]
  dsimp only
  exact ⟨_, rfl, rfl, rfl, rfl, rfl, _, rfl, rfl⟩

/-- C4: an import into a (line, machine, doc_type) scope never duplicates a
logical document. If the catalog lookup resolves (it returns a document
exactly when the normalized filename or the content hash matches an
existing document of that scope, name first), the import appends its one
new revision to that resolved document and creates no document row; when no
document of the scope matches by name or by hash, the lookup returns
nothing and a fresh document carrying the normalized name is created, the
new revision attached to it. -/
theorem c4_import_resolves_to_existing_document (st : SysState) (n : Str) (b : Bytes)
    (l m t u ts : Str) :
    (∀ d0 : Document,
      find_machine_document_by_name_or_hash st.db l m t (normalize_doc_name n)
          (hashBytes b) = some d0 →
        d0 ∈ st.db.documents ∧ sameIdentityBool d0 l m t = true ∧
        (d0.name = normalize_doc_name n ∨ documentHasHash st.db d0 (hashBytes b) = true) ∧
        (save_document true true st n b l m t u ts).1.db.documents = st.db.documents ∧
        ∃ r : Revision,
          (save_document true true st n b l m t u ts).1.db.revisions =
            st.db.revisions ++ [r] ∧ r.documentId = d0.id) ∧
    (find_machine_document_by_name_or_hash st.db l m t (normalize_doc_name n)
        (hashBytes b) = none →
      (∀ d ∈ st.db.documents, sameIdentityBool d l m t = true →
        d.name ≠ normalize_doc_name n ∧ documentHasHash st.db d (hashBytes b) = false) ∧
      ∃ nd : Document,
        (save_document true true st n b l m t u ts).1.db.documents =
          st.db.documents ++ [nd] ∧
        nd.name = normalize_doc_name n ∧
        ∃ r : Revision,
          (save_document true true st n b l m t u ts).1.db.revisions =
            st.db.revisions ++ [r] ∧ r.documentId = nd.id) := by
  constructor
  · intro d0 hf
    obtain ⟨hmem, hsame, hmatch⟩ := find_some_matches st.db l m t _ _ d0 hf
    obtain ⟨hdocs, r, hrevs, hrid⟩ := save_document_resolved st n b l m t u ts d0 hf
    exact ⟨hmem, hsame, hmatch, hdocs, r, hrevs, hrid⟩
  · intro hf
    obtain ⟨nd, hdocs, hname, -, -, -, r, hrevs, hrid⟩ :=
      save_document_created st n b l m t u ts hf
    exact ⟨find_none_no_match st.db l m t _ _ hf, nd, hdocs, hname, r, hrevs, hrid⟩

/-! ## Export, recall postconditions, deactivation, readonly mode -/

/-- C7 (amended): when the revision's stored file exists, export copies its
bytes unmodified to the chosen destination under
`<doc name>_rev<revision number><stored extension>`; hence whenever the
stored bytes still hash to the revision's recorded content hash, so does
the exported file. When the stored file is missing, export fails and
copies nothing. -/
theorem c7_export_copies_bytes_unmodified (st : SysState) (docName : Str) (rev : Revision) :
    (∀ bs : Bytes, lookupFile st.storage rev.storedPath = some bs →
      ∃ exported : Bytes,
        export_revision st docName rev =
          ExportResult.ok (docName ++ ("_rev").data ++ decRep rev.revisionNumber ++
            pySuffixOfName (rev.storedPath.getLast?.getD [])) exported ∧
        exported = bs ∧
        (hashBytes bs = rev.fileHash → hashBytes exported = rev.fileHash)) ∧
    (lookupFile st.storage rev.storedPath = none →
      export_revision st docName rev = ExportResult.fileMissing) := by
  constructor
  · intro bs h
    unfold export_revision
    rw [h]
    exact ⟨bs, rfl, rfl, fun hh => hh⟩
  · intro h
    unfold export_revision
    rw [h]

/-- C8 (amended): a recall of a selected revision whose stored file exists
(and whose stored bytes still hash to its recorded content hash) appends to
the same document one new revision with that content hash, with notes
`Recalled previous revision` and the original filename copied from the
source revision; the pre-existing revisions and the document rows are
untouched. -/
theorem c8_recall_appends_matching_revision (st : SysState) (dId rId : Nat)
    (l m : Str) (sdt : Option Str) (u ts : Str) (rev : Revision) (doc : Document)
    (bs : Bytes)
    (hsel : selected_revision st.db dId rId = some rev)
    (hfile : lookupFile st.storage rev.storedPath = some bs)
    (hl : (pyStrip l).isEmpty = false) (hm : (pyStrip m).isEmpty = false)
    (hdoc : find_document_by_id st.db dId = some doc)
    (hint : hashBytes bs = rev.fileHash) :
    ∃ r : Revision,
      (recall_selected false st dId rId l m sdt u ts).1.db.revisions =
        st.db.revisions ++ [r] ∧
      r.documentId = dId ∧
      r.fileHash = rev.fileHash ∧
      r.notes = some (("Recalled previous revision").data) ∧
      r.originalFilename = rev.originalFilename ∧
      (recall_selected false st dId rId l m sdt u ts).1.db.documents =
        st.db.documents ∧
      (recall_selected false st dId rId l m sdt u ts).2 =
        RecallResult.ok st.db.nextRevisionId := by
  unfold recall_selected store_file
  dsimp only
  rw [hsel]
  dsimp only
  rw [hfile]
  dsimp only
  rw [hl, hm]
  rw [if_neg (by decide)]
  rw [hdoc]
  dsimp only
  rw [add_at_next]
  dsimp only
  exact ⟨_, rfl, rfl, hint, rfl, rfl, rfl, rfl⟩

/-- C9: deactivation only flips the target document's `active` flag: the
stored files and the revision ledger are untouched, the set of document
rows keeps its size, every other document row is kept as it was, the target
row is kept with `active := false`, and every row after the operation comes
from a row before it with all fields other than `active` unchanged. -/
theorem c9_deactivation_frame (st : SysState) (dId : Nat) :
    (delete_document false true st dId).storage = st.storage ∧
    (delete_document false true st dId).db.revisions = st.db.revisions ∧
    (delete_document false true st dId).db.documents.length =
      st.db.documents.length ∧
    (∀ d ∈ st.db.documents, d.id ≠ dId →
      d ∈ (delete_document false true st dId).db.documents) ∧
    (∀ d ∈ st.db.documents, d.id = dId →
      (⟨d.id, d.line, d.machine, d.docType, d.name, d.createdBy, false⟩ : Document) ∈
        (delete_document false true st dId).db.documents) ∧
    (∀ d' ∈ (delete_document false true st dId).db.documents,
      ∃ d ∈ st.db.documents,
        d'.id = d.id ∧ d'.line = d.line ∧ d'.machine = d.machine ∧
        d'.docType = d.docType ∧ d'.name = d.name ∧ d'.createdBy = d.createdBy) := by
  have heval : delete_document false true st dId =
      ⟨set_machine_document_active st.db dId false, st.storage⟩ := rfl
  rw [heval]
  unfold set_machine_document_active
  dsimp only
  refine ⟨rfl, rfl, by simp, ?_, ?_, ?_⟩
  · intro d hd hne
    have : (if d.id == dId then
        (⟨d.id, d.line, d.machine, d.docType, d.name, d.createdBy, false⟩ : Document)
      else d) = d := by
      rw [if_neg (by simp [hne])]
    rw [← this]
    exact List.mem_map_of_mem _ hd
  · intro d hd heq
    have : (if d.id == dId then
        (⟨d.id, d.line, d.machine, d.docType, d.name, d.createdBy, false⟩ : Document)
      else d) =
        (⟨d.id, d.line, d.machine, d.docType, d.name, d.createdBy, false⟩ : Document) := by
      rw [if_pos (by simp [heq])]
    rw [← this]
    exact List.mem_map_of_mem _ hd
  · intro d' hd'
    obtain ⟨d, hd, hmap⟩ := List.mem_map.mp hd'
    refine ⟨d, hd, ?_⟩
    by_cases hc : (d.id == dId) = true
    · rw [if_pos hc] at hmap
      rw [← hmap]
      exact ⟨rfl, rfl, rfl, rfl, rfl, rfl⟩
    · rw [if_neg hc] at hmap
      rw [← hmap]
      exact ⟨rfl, rfl, rfl, rfl, rfl, rfl⟩

/-- C10: in readonly mode (the user cannot edit the Master Data screen, so
`self.readonly` is set), import, recall and deactivation all return at
their readonly guard: no document or revision is created, no file is
written, and no active flag changes — the whole state is untouched. -/
theorem c10_readonly_operations_are_noops (st : SysState) (l m t : Str)
    (files : List ImportFile) (u ts : Str) (dId rId : Nat) (sdt : Option Str)
    (conf : Bool) :
    import_documents true st l m t files u ts = st ∧
    (recall_selected true st dId rId l m sdt u ts).1 = st ∧
    (recall_selected true st dId rId l m sdt u ts).2 = RecallResult.readonlyBlocked ∧
    delete_document true conf st dId = st :=
  ⟨rfl, rfl, rfl, rfl⟩

/-! ## Witness state -/

/-- A stored path for the witness state. -/
def pW : List Str :=
  [("storage").data, ("L").data, ("M").data, ("program").data, ("x").data,
    ("rev_1_20240101000000.txt").data]

/-- A document row for the witness state. -/
def docW : Document :=
  ⟨1, ("L").data, ("M").data, ("program").data, ("x").data, ("u").data, true⟩

/-- A revision row for the witness state, consistent with the bytes stored
at `pW`. -/
def revW : Revision := ⟨1, 1, 1, pW, ("x.txt").data, [7], ("u").data, none⟩

/-- A small consistent state: one document with one revision whose stored
bytes hash to its recorded content hash. -/
def stW : SysState := ⟨⟨[docW], [revW], 2, 2⟩, [(pW, [7])]⟩

/-- C4 witness: re-importing `x.txt` with the same bytes into the same
(line, machine, type) resolves to the existing document and only appends a
revision. -/
theorem c4_witness :
    find_machine_document_by_name_or_hash stW.db (("L").data) (("M").data)
        (("program").data) (normalize_doc_name (("x.txt").data)) (hashBytes [7]) =
      some docW ∧
    (save_document true true stW (("x.txt").data) [7] (("L").data) (("M").data)
        (("program").data) (("u").data) ts0).1.db.documents = stW.db.documents ∧
    ∃ r : Revision,
      (save_document true true stW (("x.txt").data) [7] (("L").data) (("M").data)
          (("program").data) (("u").data) ts0).1.db.revisions =
        stW.db.revisions ++ [r] ∧ r.documentId = docW.id :=
  have h := (c4_import_resolves_to_existing_document stW (("x.txt").data) [7]
    (("L").data) (("M").data) (("program").data) (("u").data) ts0).1 docW (by decide)
  ⟨by decide, h.2.2.2.1, h.2.2.2.2⟩

/-- C7 witness: exporting the witness revision copies its stored bytes
unmodified and reproduces the recorded content hash. -/
theorem c7_witness :
    lookupFile stW.storage revW.storedPath = some [7] ∧
    ∃ exported : Bytes,
      export_revision stW (("x").data) revW =
        ExportResult.ok ((("x").data) ++ ("_rev").data ++ decRep revW.revisionNumber ++
          pySuffixOfName (revW.storedPath.getLast?.getD [])) exported ∧
      exported = [7] ∧
      (hashBytes [7] = revW.fileHash → hashBytes exported = revW.fileHash) :=
  ⟨by decide,
    (c7_export_copies_bytes_unmodified stW (("x").data) revW).1 [7] (by decide)⟩

/-- C8 witness: recalling the witness revision appends a matching revision
to the same document. -/
theorem c8_witness :
    selected_revision stW.db 1 1 = some revW ∧
    lookupFile stW.storage revW.storedPath = some [7] ∧
    hashBytes [7] = revW.fileHash ∧
    ∃ r : Revision,
      (recall_selected false stW 1 1 (("L").data) (("M").data)
          (some (("program").data)) (("u").data) ts0).1.db.revisions =
        stW.db.revisions ++ [r] ∧
      r.documentId = 1 ∧
      r.fileHash = revW.fileHash ∧
      r.notes = some (("Recalled previous revision").data) ∧
      r.originalFilename = revW.originalFilename ∧
      (recall_selected false stW 1 1 (("L").data) (("M").data)
          (some (("program").data)) (("u").data) ts0).1.db.documents =
        stW.db.documents ∧
      (recall_selected false stW 1 1 (("L").data) (("M").data)
          (some (("program").data)) (("u").data) ts0).2 =
        RecallResult.ok stW.db.nextRevisionId :=
  ⟨by decide, by decide, by decide,
    c8_recall_appends_matching_revision stW 1 1 (("L").data) (("M").data)
      (some (("program").data)) (("u").data) ts0 revW docW [7]
      (by decide) (by decide) (by decide) (by decide) (by decide) (by decide)⟩

/-- C9 witness: deactivating the witness document keeps every field but the
active flag. -/
theorem c9_witness :
    docW ∈ stW.db.documents ∧
    (⟨docW.id, docW.line, docW.machine, docW.docType, docW.name, docW.createdBy,
        false⟩ : Document) ∈ (delete_document false true stW 1).db.documents :=
  ⟨by decide, (c9_deactivation_frame stW 1).2.2.2.2.1 docW (by decide) (by decide)⟩
